import Mathlib

/-!
# Verification of the go-hermes in-memory store and full-text index

This file gives a shallow embedding of the Go sources of the repository
(the `FTS` search engine of the older generation, and the `Cache` /
`FullText` initialisation pipeline of the newer generation) and settles
the frozen claims about them.

Modelling conventions:
* Go slices and Go maps are modelled as Lean lists (association lists for
  maps).  Go map iteration order is unspecified; the model fixes the
  insertion order.  Every claim settled below is either independent of
  that order or is settled on inputs with at most one relevant entry, so
  the choice is immaterial.
* Go `[]map[string]string` is a slice of *references*: appending
  `fts.json[index]` to a result slice shares the underlying map.  The
  value view of a returned record is the store record it aliases; where a
  claim is about aliasing, an index-level ("pointer") reading of the same
  source lines is given alongside and proved to agree with the value view.
* Out-of-range indexing panics in Go; the model totalises it with
  `List.getD`.  Theorems whose content depends on indices being in range
  carry explicit well-formedness hypotheses.
* `error` returns become `Except String` / `Option String` results.
-/

set_option autoImplicit false

namespace Hermes

/-- A record of the older-generation `FTS` engine: `map[string]string`,
modelled as an association list in insertion order. -/
abbrev SRec := List (String × String)

/-- Character-list test: does `hay` start with `needle`?  Support for the
substring tests below. -/
def charsBegin : List Char → List Char → Bool
  | [], _ => true
  | _ :: _, [] => false
  | a :: as, b :: bs => a == b && charsBegin as bs

/-- Character-list test: does `hay` contain `needle` as a contiguous run? -/
def charsHave (needle : List Char) : List Char → Bool
  | [] => charsBegin needle []
  | c :: rest => charsBegin needle (c :: rest) || charsHave needle rest

/-- Modelled from the spec: the helper `_Contains(value, query)` is not
among the provided sources; per the spec it is plain substring
containment (`strings.Contains`): `strHasSub s sub` holds when `s`
contains `sub`. -/
def strHasSub (s sub : String) : Bool :=
  charsHave sub.data s.data

/-- ASCII lower-casing of a string, character by character (Go
`strings.ToLower` on the ASCII range; non-ASCII passes through). -/
def lowerStr (s : String) : String :=
  String.mk (s.data.map Char.toLower)

/-- Modelled from the spec: the helper `_ContainsIgnoreCase(value, query)`
is not among the provided sources; per the spec it is case-insensitive
substring containment. -/
def strHasSubIC (s sub : String) : Bool :=
  charsHave (lowerStr sub).data (lowerStr s).data

/-- The older-generation full-text engine (`FTS`): `json` is the record
store (a slice of records), `cache` maps an indexed word to the posting
(a slice of indices into `json`), `keys` is the insertion-ordered list of
indexed words.  The mutex is dropped: the model is single-threaded. -/
structure FTS where
  json : List SRec
  cache : List (String × List Nat)
  keys : List String

/-- Go `fts.cache[query]` with its `ok` flag: association-list lookup. -/
def cacheLookup (fts : FTS) (w : String) : Option (List Nat) :=
  (fts.cache.find? (fun kv => kv.1 == w)).map (fun kv => kv.2)

/-- Go `fts.cache[k]` where a missing key yields the empty (nil) slice. -/
def cachePosting (fts : FTS) (w : String) : List Nat :=
  (cacheLookup fts w).getD []

/-- Inner loop of the non-strict branch of `_Search` (part_000 lines
211-220): walk a posting; indices already marked `-1` are skipped, fresh
ones append `fts.json[index]` to the result and are marked. -/
def appendPosting (json : List SRec) : List Nat → List SRec → List Int → List SRec × List Int
  | [], result, indices => (result, indices)
  | i :: rest, result, indices =>
    if indices.getD i 0 = -1 then appendPosting json rest result indices
    else appendPosting json rest (result ++ [json.getD i []]) (indices.set i (-1))

/-- Outer loop of the non-strict branch of `_Search` (part_000 lines
202-221): walk `fts.keys`; return as soon as the result holds at least
`limit` records; skip words not containing the query; otherwise walk the
word's posting. -/
def searchLoop (fts : FTS) (query : String) (limit : Int) :
    List String → List SRec → List Int → List SRec × List Int
  | [], result, indices => (result, indices)
  | k :: rest, result, indices =>
    if (result.length : Int) ≥ limit then (result, indices)
    else if strHasSub k query = false then searchLoop fts query limit rest result indices
    else
      let p := appendPosting fts.json (cachePosting fts k) result indices
      searchLoop fts query limit rest p.1 p.2

/-- `FTS._Search` (part_000 lines 171-225).  Empty query: empty result.
Strict: read the posting of the (uncanonicalised) query from the cache
and materialise `fts.json[index]` for each posting entry, ignoring
`limit`.  Non-strict: scan the word list with `searchLoop`. -/
def FTS.searchGo (fts : FTS) (query : String) (limit : Int) (strict : Bool) :
    List SRec × List Int :=
  if query.length = 0 then ([], [])
  else if strict then
    match cacheLookup fts query with
    | none => ([], List.replicate fts.json.length 0)
    | some idxs => (idxs.map (fun i => fts.json.getD i []), idxs.map (fun i => (i : Int)))
  else searchLoop fts query limit fts.keys [] (List.replicate fts.json.length 0)

/-- Go `strings.Split(s, " ")` on character lists: split at every single
space character (runs of spaces yield empty pieces). -/
def splitSpace : List Char → List (List Char)
  | [] => [[]]
  | c :: rest =>
    let r := splitSpace rest
    if c == Char.ofNat 32 then [] :: r
    else
      match r with
      | [] => [[c]]
      | h :: t => (c :: h) :: t

/-- Go `strings.TrimSpace`: drop whitespace from both ends. -/
def trimChars (l : List Char) : List Char :=
  ((l.dropWhile Char.isWhitespace).reverse.dropWhile Char.isWhitespace).reverse

/-- The word list of `_SearchWithSpaces` (part_000 line 74):
`strings.Split(strings.TrimSpace(query), " ")`. -/
def goSplitWords (q : String) : List String :=
  (splitSpace (trimChars q.data)).map String.mk

/-- Field loop of `_SearchWithSpaces` (part_000 lines 95-102): for each
field of the record, skip fields outside the schema; append the whole
record once for each schema field whose value contains the entire query
string. -/
def fieldScan (ks : List String) (q : String) (r : SRec) : List (String × String) → List SRec
  | [] => []
  | kv :: rest =>
    if ks.contains kv.1 = false then fieldScan ks q r rest
    else if strHasSub kv.2 q then r :: fieldScan ks q r rest
    else fieldScan ks q r rest

/-- Record loop of `_SearchWithSpaces` (part_000 lines 93-103). -/
def recsScan (ks : List String) (q : String) : List SRec → List SRec
  | [] => []
  | r :: rest => fieldScan ks q r r ++ recsScan ks q rest

/-- Word loop of `_SearchWithSpaces` (part_000 lines 88-104): for each
word, run the single-word search and scan its result records. -/
def wordsScan (fts : FTS) (limit : Int) (strict : Bool) (ks : List String) (q : String) :
    List String → List SRec
  | [] => []
  | w :: rest =>
    recsScan ks q (fts.searchGo w limit strict).1 ++ wordsScan fts limit strict ks q rest

/-- `FTS._SearchWithSpaces` (part_000 lines 72-108).  `ks` is the set of
schema keys mapped to `true` in the Go `map[string]bool`. -/
def FTS.searchWithSpacesGo (fts : FTS) (query : String) (limit : Int) (strict : Bool)
    (ks : List String) : List SRec × List Int :=
  let words := goSplitWords query
  if words.length = 0 then ([], [])
  else if words.length = 1 then fts.searchGo (words.headD "") limit strict
  else (wordsScan fts limit strict ks query words, [])

/-- Field loop of `_SearchInJson` (part_000 lines 149-156): like
`fieldScan` but with the case-insensitive containment test. -/
def fieldScanIC (ks : List String) (q : String) (r : SRec) : List (String × String) → List SRec
  | [] => []
  | kv :: rest =>
    if ks.contains kv.1 = false then fieldScanIC ks q r rest
    else if strHasSubIC kv.2 q then r :: fieldScanIC ks q r rest
    else fieldScanIC ks q r rest

/-- Record loop of `_SearchInJson` (part_000 lines 147-157). -/
def recsScanIC (ks : List String) (q : String) : List SRec → List SRec
  | [] => []
  | r :: rest => fieldScanIC ks q r r ++ recsScanIC ks q rest

/-- `FTS._SearchInJson` (part_000 lines 142-161).  The `limit` parameter
is received but never used by the source. -/
def FTS.searchInJsonGo (fts : FTS) (query : String) (limit : Int) (ks : List String) :
    List SRec :=
  recsScanIC ks query fts.json

/-- Go `fts.json[i][key]`: map read whose zero value is `""`. -/
def lookupField (r : SRec) (k : String) : String :=
  match r.find? (fun kv => kv.1 == k) with
  | some kv => kv.2
  | none => ""

/-- `FTS._SearchInJsonWithKey` (part_000 lines 118-132): keep each record
whose `key` field contains the query case-insensitively.  The `limit`
parameter is received but never used by the source. -/
def FTS.searchInJsonWithKeyGo (fts : FTS) (query : String) (key : String) (limit : Int) :
    List SRec :=
  fts.json.filter (fun r => strHasSubIC (lookupField r key) query)

/-! ### Alias-level reading of `_Search`

Go's `[]map[string]string` is a slice of map references, and `_Search`
appends `fts.json[index]` without copying, so a returned record *is* the
store's record.  The following definitions re-read the same source lines
(part_000 lines 185-224) at the level of the store indices the returned
references point at; `searchGo_eq_aliases` below proves that the value
view of the result is exactly the store read through these aliases. -/

/-- Alias-level `appendPosting`: collect the appended store indices. -/
def appendPostingA : List Nat → List Nat → List Int → List Nat × List Int
  | [], acc, indices => (acc, indices)
  | i :: rest, acc, indices =>
    if indices.getD i 0 = -1 then appendPostingA rest acc indices
    else appendPostingA rest (acc ++ [i]) (indices.set i (-1))

/-- Alias-level `searchLoop`. -/
def searchLoopA (fts : FTS) (query : String) (limit : Int) :
    List String → List Nat → List Int → List Nat × List Int
  | [], acc, indices => (acc, indices)
  | k :: rest, acc, indices =>
    if (acc.length : Int) ≥ limit then (acc, indices)
    else if strHasSub k query = false then searchLoopA fts query limit rest acc indices
    else
      let p := appendPostingA (cachePosting fts k) acc indices
      searchLoopA fts query limit rest p.1 p.2

/-- The store indices aliased by the records `_Search` returns. -/
def FTS.searchAliasesGo (fts : FTS) (query : String) (limit : Int) (strict : Bool) :
    List Nat :=
  if query.length = 0 then []
  else if strict then (cacheLookup fts query).getD []
  else (searchLoopA fts query limit fts.keys [] (List.replicate fts.json.length 0)).1

/-- Models a caller mutating, in place, a record map returned by a search:
since the returned record aliases `fts.json[p]`, the caller's write lands
in the store's record. -/
def FTS.storeWrite (fts : FTS) (p : Nat) (r : SRec) : FTS :=
  { fts with json := fts.json.set p r }

/-! ### The newer-generation cache and its full-text initialisation

Embedding of the `package hermes` part of search.go: `InitCache`,
`FTInit`, `ftInit`, `FTInitWithMap`, `ftInitWithMap`, `FTInitWithJson`,
`ftInitWithJson` and `FullText.insert`.  The collaborators that are not
among the provided sources (`WFTGetValue`, the tokeniser, and the
`TempStorage` bulk builder) are modelled from the spec. -/

mutual

/-- A heterogeneous record field value (spec §3): string, number, boolean,
ordered list, or nested mapping.  The list and mapping shapes carry their
own cons-list types so that the extractor below is mutual *structural*
recursion (hence kernel-computable). -/
inductive Value where
  | str (s : String)
  | num (n : Int)
  | boolean (b : Bool)
  | arr (l : ValueList)
  | obj (l : ValueObj)

/-- An ordered list of values. -/
inductive ValueList where
  | nil
  | cons (v : Value) (rest : ValueList)

/-- A nested mapping, in map-insertion order. -/
inductive ValueObj where
  | nil
  | cons (k : String) (v : Value) (rest : ValueObj)

end

mutual

/-- Modelled from the spec (§4.2 value extractor, not among the provided
sources): a string yields itself (empty strings are skipped), a list
concatenates the extractions of its elements in order, a nested mapping
concatenates the extractions of its values in order, any other scalar
yields nothing. -/
def extractStrings : Value → List String
  | .str s => if s.length = 0 then [] else [s]
  | .num _ => []
  | .boolean _ => []
  | .arr l => extractList l
  | .obj l => extractObj l

/-- Extraction over a value list, element order preserved. -/
def extractList : ValueList → List String
  | .nil => []
  | .cons v rest => extractStrings v ++ extractList rest

/-- Extraction over a nested mapping: the values, in order. -/
def extractObj : ValueObj → List String
  | .nil => []
  | .cons _ v rest => extractStrings v ++ extractObj rest

end

/-- Modelled from the spec: `WFTGetValue` (not among the provided
sources) turns a field value into the single string handed to the index
builder; per §4.2 this is the space-joined extraction, empty when the
value contributes nothing. -/
def wftGetValue (v : Value) : String :=
  match extractStrings v with
  | [] => ""
  | s :: rest => rest.foldl (fun acc t => acc ++ " " ++ t) s

/-- Split a character list on runs of whitespace, discarding empty runs
(the accumulator holds the current word reversed). -/
def splitWSAux : List Char → List Char → List (List Char)
  | cur, [] => if cur.isEmpty then [] else [cur.reverse]
  | cur, c :: rest =>
    if c.isWhitespace then
      if cur.isEmpty then splitWSAux [] rest else cur.reverse :: splitWSAux [] rest
    else splitWSAux (c :: cur) rest

/-- The punctuation set stripped from token ends (spec §4.1); the escaped
characters are the double quote, the apostrophe and the two braces. -/
def punctSet : List Char :=
  ".,;:!?()[]".data ++ [Char.ofNat 34, Char.ofNat 39, Char.ofNat 123, Char.ofNat 125]

/-- Strip leading and trailing punctuation from a token. -/
def stripPunct (w : List Char) : List Char :=
  ((w.dropWhile (fun c => punctSet.contains c)).reverse.dropWhile
    (fun c => punctSet.contains c)).reverse

/-- Modelled from the spec (§4.1 tokeniser, not among the provided
sources): split on runs of whitespace, strip the punctuation set from
both ends, case-fold to lowercase, discard tokens shorter than
`minWordLength`. -/
def tokenizeGo (minWordLength : Nat) (s : String) : List String :=
  ((splitWSAux [] s.data).map (fun w => (stripPunct w).map Char.toLower)).filterMap
    (fun w => if minWordLength ≤ w.length then some (String.mk w) else none)

/-- A posting (spec §3): a bare record key when exactly one record holds
the token, an ordered duplicate-free key sequence otherwise. -/
inductive Posting where
  | single (k : String)
  | multi (ks : List String)
deriving DecidableEq

/-- The newer-generation `FullText` struct (search.go lines 242-249 and
299-306): `storage` is the token→posting index, `indices`/`index` are the
key-compression table (unused during initialisation), then the caps and
the minimum word length. -/
structure FullText where
  storage : List (String × Posting)
  indices : List (Nat × String)
  index : Nat
  maxSize : Int
  maxBytes : Int
  minWordLength : Nat
deriving DecidableEq

/-- The `FullText` struct literal of `ftInit` / `ftInitWithMap`. -/
def newFullText (maxSize maxBytes : Int) (minWordLength : Nat) : FullText :=
  ⟨[], [], 0, maxSize, maxBytes, minWordLength⟩

/-- Modelled from the spec (§4.4 temp builder, not among the provided
sources): per-token ordered duplicate-free key lists plus the running
byte total. -/
structure TempStorage where
  words : List (String × List String)
  bytes : Nat
deriving DecidableEq

/-- `NewTempStorage(ft)` for the initialisation path: the fresh index is
empty, so the scratch builder starts empty. -/
def newTempStorage (_ft : FullText) : TempStorage :=
  ⟨[], 0⟩

/-- Association-list lookup in the temp builder. -/
def lookupWord (ws : List (String × List String)) (w : String) : Option (List String) :=
  (ws.find? (fun kv => kv.1 == w)).map (fun kv => kv.2)

/-- Replace the posting of one word in the temp builder. -/
def setWord (ws : List (String × List String)) (w : String) (ks : List String) :
    List (String × List String) :=
  ws.map (fun kv => if kv.1 == w then (kv.1, ks) else kv)

/-- Modelled from the spec: one token/record-key insertion into the temp
builder with the cap checks of §3: `maxSize` bounds the number of
distinct tokens, `maxBytes` bounds the byte total of token strings plus
posting-entry strings, `-1` disables a cap; a rejected insertion leaves
the builder unchanged; a duplicate key within one posting is idempotent. -/
def tsAddWord (ft : FullText) (ts : TempStorage) (word cacheKey : String) :
    Except String TempStorage :=
  match lookupWord ts.words word with
  | none =>
    if 0 ≤ ft.maxSize ∧ ft.maxSize ≤ (ts.words.length : Int) then
      .error "full-text storage limit reached"
    else
      let newBytes := ts.bytes + word.utf8ByteSize + cacheKey.utf8ByteSize
      if 0 ≤ ft.maxBytes ∧ ft.maxBytes < (newBytes : Int) then
        .error "full-text byte-size limit reached"
      else .ok ⟨ts.words ++ [(word, [cacheKey])], newBytes⟩
  | some ks =>
    if ks.contains cacheKey then .ok ts
    else
      let newBytes := ts.bytes + cacheKey.utf8ByteSize
      if 0 ≤ ft.maxBytes ∧ ft.maxBytes < (newBytes : Int) then
        .error "full-text byte-size limit reached"
      else .ok ⟨setWord ts.words word (ks ++ [cacheKey]), newBytes⟩

/-- Insert a token list for one record key, stopping at the first cap
error. -/
def tsInsertTokens (ft : FullText) (cacheKey : String) :
    List String → TempStorage → Except String TempStorage
  | [], ts => .ok ts
  | w :: rest, ts =>
    match tsAddWord ft ts w cacheKey with
    | .error e => .error e
    | .ok ts2 => tsInsertTokens ft cacheKey rest ts2

/-- Modelled from the spec: `ts.insert(ft, cacheKey, ftv)` (not among the
provided sources) tokenises the extracted string and adds each token for
the record key, with cap checks. -/
def tsInsert (ft : FullText) (ts : TempStorage) (cacheKey ftv : String) :
    Except String TempStorage :=
  tsInsertTokens ft cacheKey (tokenizeGo ft.minWordLength ftv) ts

/-- Spec §4.4: a singleton key list collapses to the Single shape. -/
def postingOfKeys : List String → Posting
  | [k] => Posting.single k
  | ks => Posting.multi ks

/-- Modelled from the spec: `ts.cleanSingleArrays()` followed by
`ts.updateFullText(ft)` — flush the temp builder into the index storage,
collapsing singleton postings. -/
def updateFullText (ft : FullText) (ts : TempStorage) : FullText :=
  { ft with storage := ts.words.map (fun wk => (wk.1, postingOfKeys wk.2)) }

/-- A record of the newer generation: `map[string]any`. -/
abbrev VRec := List (String × Value)

/-- The data handled by the cache: `map[string]map[string]any`. -/
abbrev RecordMap := List (String × VRec)

/-- Field loop of `FullText.insert` (search.go lines 385-397): skip
fields whose extraction is empty; otherwise overwrite the field value
with the extracted string *in the caller's record* and feed it to the
temp builder; a cap error aborts, leaving the already-rewritten fields
behind.  The mutated record is returned alongside the outcome. -/
def insertRecordGo (ft : FullText) (ts : TempStorage) (cacheKey : String) :
    VRec → VRec × Except String TempStorage
  | [] => ([], .ok ts)
  | kv :: rest =>
    let ftv := wftGetValue kv.2
    if ftv.length = 0 then
      let p := insertRecordGo ft ts cacheKey rest
      (kv :: p.1, p.2)
    else
      match tsInsert ft ts cacheKey ftv with
      | .error e => ((kv.1, Value.str ftv) :: rest, .error e)
      | .ok ts2 =>
        let p := insertRecordGo ft ts2 cacheKey rest
        ((kv.1, Value.str ftv) :: p.1, p.2)

/-- Record loop of `FullText.insert` (search.go lines 384-398). -/
def insertDataGo (ft : FullText) (ts : TempStorage) :
    RecordMap → RecordMap × Except String TempStorage
  | [] => ([], .ok ts)
  | kr :: rest =>
    match insertRecordGo ft ts kr.1 kr.2 with
    | (r2, .error e) => ((kr.1, r2) :: rest, .error e)
    | (r2, .ok ts2) =>
      let p := insertDataGo ft ts2 rest
      ((kr.1, r2) :: p.1, p.2)

/-- `FullText.insert` (search.go lines 379-414): build a temp storage,
walk the data — mutating each indexable field value to its extracted
string in place, hence the mutated map is returned alongside the outcome
— then flush the temp storage into the index.  The debugging
`fmt.Println` is dropped. -/
def FullText.insertGo (ft : FullText) (data : RecordMap) :
    RecordMap × Except String FullText :=
  match insertDataGo ft (newTempStorage ft) data with
  | (d2, .error e) => (d2, .error e)
  | (d2, .ok ts) => (d2, .ok (updateFullText ft ts))

/-- The newer-generation `Cache` (search.go lines 200-206): the record
store and the optional full-text index (`nil` while uninitialised).  The
mutex is dropped: the model is single-threaded. -/
structure Cache where
  data : RecordMap
  ft : Option FullText

/-- Association-list record lookup. -/
def lookupRec (d : RecordMap) (k : String) : Option VRec :=
  (d.find? (fun kv => kv.1 == k)).map (fun kv => kv.2)

/-- Go `_, ok := data[k]`. -/
def hasKey (d : RecordMap) (k : String) : Bool :=
  d.any (fun kv => kv.1 == k)

/-- The collision-check-and-copy loop of `ftInitWithMap` (search.go lines
309-314): walk the store; a store key already present in the incoming
map stops the loop with that key; otherwise the store record is appended
to the incoming map (sharing the record object, as Go does). -/
def mergeData : RecordMap → RecordMap → RecordMap × Option String
  | [], d => (d, none)
  | kr :: rest, d =>
    if hasKey d kr.1 then (d, some kr.1)
    else mergeData rest (d ++ [kr])

/-- The in-place field rewrite `insert` performs on a fully processed
record: every field with a non-empty extraction is replaced by the
extracted string. -/
def replaceFields (r : VRec) : VRec :=
  r.map (fun kv =>
    if (wftGetValue kv.2).length = 0 then kv else (kv.1, Value.str (wftGetValue kv.2)))

/-- `replaceFields` over a whole record map. -/
def replaceAll (d : RecordMap) : RecordMap :=
  d.map (fun kr => (kr.1, replaceFields kr.2))

/-- `Cache.ftInit` (search.go lines 240-261): build a fresh `FullText`,
run `insert` on the cache's own data — which mutates that data in place,
error or not — and install the index only on success. -/
def Cache.ftInitGo (c : Cache) (maxSize maxBytes : Int) (minWordLength : Nat) :
    Cache × Except String Unit :=
  match ((newFullText maxSize maxBytes minWordLength).insertGo c.data).2 with
  | .error e =>
    ({ c with data := ((newFullText maxSize maxBytes minWordLength).insertGo c.data).1 },
      .error e)
  | .ok ft2 =>
    ({ c with
        data := ((newFullText maxSize maxBytes minWordLength).insertGo c.data).1,
        ft := some ft2 }, .ok ())

/-- `Cache.FTInit` (search.go lines 218-229). -/
def Cache.FTInitGo (c : Cache) (maxSize maxBytes : Int) (minWordLength : Nat) :
    Cache × Except String Unit :=
  if c.ft.isSome then (c, .error "full-text already initialized")
  else c.ftInitGo maxSize maxBytes minWordLength

/-- `Cache.ftInitWithMap` (search.go lines 297-327).  The middle
component of the result is the caller's map after the call (Go mutates
it in place).  On an insert error the store keeps its own keys but sees
the in-place record rewrites, because the merge loop shared the record
objects between `c.data` and the merged map. -/
def Cache.ftInitWithMapGo (c : Cache) (data : RecordMap)
    (maxSize maxBytes : Int) (minWordLength : Nat) :
    Cache × RecordMap × Except String Unit :=
  match (mergeData c.data data).2 with
  | some k => (c, (mergeData c.data data).1,
      .error ("key " ++ k ++ " already exists in cache"))
  | none =>
    match ((newFullText maxSize maxBytes minWordLength).insertGo
        (mergeData c.data data).1).2 with
    | .error e =>
      ({ c with data := c.data.map (fun kv => (kv.1,
          (lookupRec ((newFullText maxSize maxBytes minWordLength).insertGo
            (mergeData c.data data).1).1 kv.1).getD kv.2)) },
        ((newFullText maxSize maxBytes minWordLength).insertGo
          (mergeData c.data data).1).1, .error e)
    | .ok ft2 =>
      ({ c with
          data := ((newFullText maxSize maxBytes minWordLength).insertGo
            (mergeData c.data data).1).1,
          ft := some ft2 },
        ((newFullText maxSize maxBytes minWordLength).insertGo
          (mergeData c.data data).1).1, .ok ())

/-- `Cache.FTInitWithMap` (search.go lines 274-285). -/
def Cache.FTInitWithMapGo (c : Cache) (data : RecordMap)
    (maxSize maxBytes : Int) (minWordLength : Nat) :
    Cache × RecordMap × Except String Unit :=
  if c.ft.isSome then (c, data, .error "full-text cache already initialized")
  else c.ftInitWithMapGo data maxSize maxBytes minWordLength

/-- `Cache.FTInitWithJson` / `ftInitWithJson` (search.go lines 340-369):
the file read happens before any cache mutation and is modelled by its
outcome `fileData`. -/
def Cache.FTInitWithJsonGo (c : Cache) (fileData : Except String RecordMap)
    (maxSize maxBytes : Int) (minWordLength : Nat) : Cache × Except String Unit :=
  if c.ft.isSome then (c, .error "full-text cache already initialized")
  else
    match fileData with
    | .error e => (c, .error e)
    | .ok d =>
      let r := c.ftInitWithMapGo d maxSize maxBytes minWordLength
      (r.1, r.2.2)

/-! ### Concrete instances used by the counterexamples and witnesses -/

/-- One record whose only field needs extraction ("aa bb" has two tokens),
used against a one-word cap. -/
def cacheCap : Cache :=
  ⟨[("r", [("f", Value.arr (.cons (.str "aa") (.cons (.str "bb") .nil)))])], none⟩

/-- A cache whose index is already initialised. -/
def cacheInitialised : Cache :=
  ⟨[], some (newFullText (-1) (-1) 1)⟩

/-- The empty, uninitialised cache (`InitCache()`). -/
def cacheEmpty : Cache :=
  ⟨[], none⟩

/-- A store holding key "a", for the collision scenarios. -/
def cacheColl : Cache :=
  ⟨[("a", [("x", Value.str "v")])], none⟩

/-- An incoming map that collides with `cacheColl` on key "a". -/
def mapColl : RecordMap :=
  [("a", [("y", Value.str "w")])]

/-- An incoming map with a list-valued field, whose indexing rewrites the
field in place. -/
def mapRS : RecordMap :=
  [("r", [("f", Value.arr (.cons (.str "aa") (.cons (.str "bb") .nil)))])]

/-- FTS instance: one record "car red" indexed under both words. -/
def ftsCarRed : FTS :=
  ⟨[[("name", "car red")]], [("car", [0]), ("red", [0])], ["car", "red"]⟩

/-- FTS instance: one record "red car" indexed under both words. -/
def ftsDupRed : FTS :=
  ⟨[[("name", "red car")]], [("car", [0]), ("red", [0])], ["car", "red"]⟩

/-- FTS instance: one record indexed under one word. -/
def ftsSingleA : FTS :=
  ⟨[[("name", "a")]], [("a", [0])], ["a"]⟩

/-- FTS instance: two records sharing the word "ab". -/
def ftsPair : FTS :=
  ⟨[[("name", "x")], [("name", "y")]], [("ab", [0, 1])], ["ab"]⟩

/-- FTS instance with two records and an empty index, for the
store-scanning searches. -/
def ftsTris : FTS :=
  ⟨[[("name", "tris")], [("name", "tristan")]], [], []⟩

/-- FTS instance for the aliasing counterexample. -/
def ftsAlias : FTS :=
  ⟨[[("name", "tris")]], [("tris", [0])], ["tris"]⟩

/-! ### Lemmas about the search loops -/

theorem mem_fieldScan {ks : List String} {q : String} {r x : SRec} :
    ∀ {l : List (String × String)},
      x ∈ fieldScan ks q r l ↔
        x = r ∧ ∃ kv ∈ l, kv.1 ∈ ks ∧ strHasSub kv.2 q = true := by
  intro l
  induction l with
  | nil => simp [fieldScan]
  | cons kv rest ih =>
    by_cases hc : kv.1 ∈ ks
    · cases hs : strHasSub kv.2 q with
      | false => simp [fieldScan, hc, hs, ih]
      | true =>
        simp [fieldScan, hc, hs, ih]
        tauto
    · simp [fieldScan, hc, ih]

theorem mem_recsScan {ks : List String} {q : String} {x : SRec} :
    ∀ {l : List SRec}, x ∈ recsScan ks q l ↔ ∃ r ∈ l, x ∈ fieldScan ks q r r := by
  intro l
  induction l with
  | nil => simp [recsScan]
  | cons r rest ih => simp [recsScan, ih]

theorem mem_wordsScan {fts : FTS} {limit : Int} {strict : Bool} {ks : List String}
    {q : String} {x : SRec} :
    ∀ {ws : List String},
      x ∈ wordsScan fts limit strict ks q ws ↔
        ∃ w ∈ ws, x ∈ recsScan ks q (fts.searchGo w limit strict).1 := by
  intro ws
  induction ws with
  | nil => simp [wordsScan]
  | cons w rest ih => simp [wordsScan, ih]

theorem appendPosting_length (json : List SRec) :
    ∀ (p : List Nat) (result : List SRec) (indices : List Int),
      (appendPosting json p result indices).1.length ≤ result.length + p.length := by
  intro p
  induction p with
  | nil => intro result indices; simp [appendPosting]
  | cons i rest ih =>
    intro result indices
    by_cases h : indices.getD i 0 = -1
    · simp only [appendPosting, if_pos h, List.length_cons]
      have := ih result indices
      omega
    · simp only [appendPosting, if_neg h, List.length_cons]
      have := ih (result ++ [json.getD i []]) (indices.set i (-1))
      simp only [List.length_append, List.length_cons, List.length_nil,
        List.length_singleton] at this
      omega

theorem searchLoop_length (fts : FTS) (q : String) (limit : Int) (M : Nat) :
    ∀ (ks : List String) (result : List SRec) (indices : List Int),
      (∀ k ∈ ks, (cachePosting fts k).length ≤ M) →
      (result.length : Int) ≤ limit - 1 + M →
      ((searchLoop fts q limit ks result indices).1.length : Int) ≤ limit - 1 + M := by
  intro ks
  induction ks with
  | nil => intro result indices _ hres; simpa [searchLoop] using hres
  | cons k rest ih =>
    intro result indices hM hres
    simp only [searchLoop]
    by_cases hlim : (result.length : Int) ≥ limit
    · simpa [hlim] using hres
    · cases hsub : strHasSub k q with
      | false =>
        simp only [hlim, if_false, hsub]
        exact ih result indices (fun k2 hk2 => hM k2 (List.mem_cons_of_mem _ hk2)) hres
      | true =>
        simp only [hlim, if_false, hsub, if_true]
        apply ih _ _ (fun k2 hk2 => hM k2 (List.mem_cons_of_mem _ hk2))
        have h1 := appendPosting_length fts.json (cachePosting fts k) result indices
        have h2 : (cachePosting fts k).length ≤ M := hM k (List.mem_cons_self _ _)
        have h3 : (result.length : Int) ≤ limit - 1 := by omega
        have h4 : ((appendPosting fts.json (cachePosting fts k) result indices).1.length : Int)
            ≤ (result.length : Int) + (M : Int) := by
          calc ((appendPosting fts.json (cachePosting fts k) result indices).1.length : Int)
              ≤ ((result.length + (cachePosting fts k).length : Nat) : Int) := by
                exact_mod_cast h1
            _ ≤ (result.length : Int) + (M : Int) := by push_cast; omega
        omega

theorem searchLoop_nonpos (fts : FTS) (q : String) (limit : Int) (hlim : limit ≤ 0) :
    ∀ (ks : List String) (indices : List Int),
      (searchLoop fts q limit ks [] indices).1 = [] := by
  intro ks indices
  cases ks with
  | nil => simp [searchLoop]
  | cons k rest => simp [searchLoop, hlim]

theorem appendPostingA_spec (json : List SRec) :
    ∀ (p : List Nat) (acc : List Nat) (indices : List Int),
      appendPosting json p (acc.map (fun i => json.getD i [])) indices =
        ((appendPostingA p acc indices).1.map (fun i => json.getD i []),
          (appendPostingA p acc indices).2) := by
  intro p
  induction p with
  | nil => intro acc indices; simp [appendPosting, appendPostingA]
  | cons i rest ih =>
    intro acc indices
    by_cases h : indices.getD i 0 = -1
    · simp only [appendPosting, appendPostingA, if_pos h]
      exact ih acc indices
    · simp only [appendPosting, appendPostingA, if_neg h]
      rw [show (acc.map (fun i => json.getD i [])) ++ [json.getD i []] =
          (acc ++ [i]).map (fun i => json.getD i []) by simp]
      exact ih _ _

theorem searchLoopA_spec (fts : FTS) (q : String) (limit : Int) :
    ∀ (ks : List String) (acc : List Nat) (indices : List Int),
      searchLoop fts q limit ks (acc.map (fun i => fts.json.getD i [])) indices =
        ((searchLoopA fts q limit ks acc indices).1.map (fun i => fts.json.getD i []),
          (searchLoopA fts q limit ks acc indices).2) := by
  intro ks
  induction ks with
  | nil => intro acc indices; simp [searchLoop, searchLoopA]
  | cons k rest ih =>
    intro acc indices
    simp only [searchLoop, searchLoopA, List.length_map]
    by_cases hlim : (acc.length : Int) ≥ limit
    · simp only [if_pos hlim]
    · by_cases hsub : strHasSub k q = false
      · simp only [if_neg hlim, if_pos hsub]
        exact ih acc indices
      · simp only [if_neg hlim, if_neg hsub]
        rw [appendPostingA_spec fts.json (cachePosting fts k) acc indices]
        exact ih _ _

/-- Claim C7 (amended): search results are not snapshots.  The value view
of the records `_Search` returns is exactly the store read through the
alias indices of `searchAliasesGo`: the code appends `fts.json[index]`
without copying, so every returned record aliases the store record it
came from, and a caller-side mutation of a returned record map is a
mutation of the store's record. -/
theorem claim_C7_amended (fts : FTS) (q : String) (limit : Int) (strict : Bool) :
    (fts.searchGo q limit strict).1 =
      (fts.searchAliasesGo q limit strict).map (fun i => fts.json.getD i []) := by
  by_cases hq : q.length = 0
  · simp [FTS.searchGo, FTS.searchAliasesGo, hq]
  · cases strict with
    | true =>
      cases hc : cacheLookup fts q with
      | none => simp [FTS.searchGo, FTS.searchAliasesGo, hq, hc]
      | some idxs => simp [FTS.searchGo, FTS.searchAliasesGo, hq, hc]
    | false =>
      simp only [FTS.searchGo, FTS.searchAliasesGo, if_neg hq, Bool.false_eq_true,
        if_false]
      have h := searchLoopA_spec fts q limit fts.keys [] (List.replicate fts.json.length 0)
      simp only [List.map_nil] at h
      rw [h]

/-- Membership in `fieldScanIC`: mirror of `mem_fieldScan` for the
case-insensitive scan of `_SearchInJson`. -/
theorem mem_fieldScanIC {ks : List String} {q : String} {r x : SRec} :
    ∀ {l : List (String × String)},
      x ∈ fieldScanIC ks q r l ↔
        x = r ∧ ∃ kv ∈ l, kv.1 ∈ ks ∧ strHasSubIC kv.2 q = true := by
  intro l
  induction l with
  | nil => simp [fieldScanIC]
  | cons kv rest ih =>
    by_cases hc : kv.1 ∈ ks
    · cases hs : strHasSubIC kv.2 q with
      | false => simp [fieldScanIC, hc, hs, ih]
      | true =>
        simp [fieldScanIC, hc, hs, ih]
        tauto
    · simp [fieldScanIC, hc, ih]

/-- Membership in `recsScanIC`. -/
theorem mem_recsScanIC {ks : List String} {q : String} {x : SRec} :
    ∀ {l : List SRec}, x ∈ recsScanIC ks q l ↔ ∃ r ∈ l, x ∈ fieldScanIC ks q r r := by
  intro l
  induction l with
  | nil => simp [recsScanIC]
  | cons r rest ih => simp [recsScanIC, ih]

/-! ### Claims C2 to C7: the search engine -/

/-- Claim C2 (amended): a multi-word non-strict search does not intersect
the per-token candidate sets.  A record is in the result iff it is in the
single-word search result of at least one whitespace-split token AND some
schema-named field of the record contains the *entire* query string as a
substring; it is appended once per such token/field pair, so neither
conjunction over all tokens nor first-token discovery order holds. -/
theorem claim_C2_amended (fts : FTS) (q : String) (limit : Int) (strict : Bool)
    (ks : List String) (r : SRec) (h : 2 ≤ (goSplitWords q).length) :
    r ∈ (fts.searchWithSpacesGo q limit strict ks).1 ↔
      (∃ w ∈ goSplitWords q, r ∈ (fts.searchGo w limit strict).1) ∧
      ∃ kv ∈ r, kv.1 ∈ ks ∧ strHasSub kv.2 q = true := by
  rcases hw : goSplitWords q with _ | ⟨a, _ | ⟨b, rest⟩⟩
  · rw [hw] at h; simp at h
  · rw [hw] at h; simp at h
  · simp only [FTS.searchWithSpacesGo, hw, List.length_cons]
    have h0 : ¬(rest.length + 1 + 1 = 0) := by omega
    have h1 : ¬(rest.length + 1 + 1 = 1) := by omega
    simp only [if_neg h0, if_neg h1]
    show r ∈ wordsScan fts limit strict ks q (a :: b :: rest) ↔ _
    rw [mem_wordsScan]
    constructor
    · rintro ⟨w, hwmem, hrec⟩
      rw [mem_recsScan] at hrec
      rcases hrec with ⟨r2, hr2, hfield⟩
      rw [mem_fieldScan] at hfield
      rcases hfield with ⟨rfl, hkv⟩
      exact ⟨⟨w, hwmem, hr2⟩, hkv⟩
    · rintro ⟨⟨w, hwmem, hr⟩, hkv⟩
      refine ⟨w, hwmem, ?_⟩
      rw [mem_recsScan]
      exact ⟨r, hr, mem_fieldScan.mpr ⟨rfl, hkv⟩⟩

/-- Claim C2 counterexample: with the store record {name: "car red"}
indexed under both "car" and "red", every token of the query "red car" is
satisfied by the record (it is in both single-word candidate sets), yet
the multi-word non-strict search returns the empty list — the result is
not the conjunction of the per-token candidate sets. -/
theorem claim_C2_counterexample :
    [("name", "car red")] ∈ (ftsCarRed.searchGo "red" 10 false).1 ∧
    [("name", "car red")] ∈ (ftsCarRed.searchGo "car" 10 false).1 ∧
    (ftsCarRed.searchWithSpacesGo "red car" 10 false ["name"]).1 = [] := by
  refine ⟨by decide, by decide, by decide⟩

/-- Claim C2 witness: the amended characterisation applied at the
counterexample instance. -/
theorem claim_C2_witness :
    [("name", "car red")] ∈ (ftsCarRed.searchWithSpacesGo "red car" 10 false ["name"]).1 ↔
      (∃ w ∈ goSplitWords "red car",
        [("name", "car red")] ∈ (ftsCarRed.searchGo w 10 false).1) ∧
      ∃ kv ∈ [("name", "car red")], kv.1 ∈ ["name"] ∧ strHasSub kv.2 "red car" = true :=
  claim_C2_amended ftsCarRed "red car" 10 false ["name"] [("name", "car red")] (by decide)

/-- Claim C3 (amended): in a non-strict search the limit check happens
only before each token, so with `limit > 0` the result can exceed `limit`
by up to one posting (it is bounded by `limit - 1` plus the longest
posting), and `limit ≤ 0` is not unbounded: the search then returns the
empty list, whatever matches exist. -/
theorem claim_C3_amended (fts : FTS) (q : String) (limit : Int) (M : Nat)
    (hlim : 1 ≤ limit) (hM : ∀ k ∈ fts.keys, (cachePosting fts k).length ≤ M) :
    ((fts.searchGo q limit false).1.length : Int) ≤ limit - 1 + M ∧
    ∀ l2 : Int, l2 ≤ 0 → (fts.searchGo q l2 false).1 = [] := by
  constructor
  · by_cases hq : q.length = 0
    · simp only [FTS.searchGo, if_pos hq]
      simp
      omega
    · simp only [FTS.searchGo, if_neg hq, Bool.false_eq_true, if_false]
      exact searchLoop_length fts q limit M fts.keys [] _ hM (by simp; omega)
  · intro l2 hl2
    by_cases hq : q.length = 0
    · simp [FTS.searchGo, hq]
    · simp only [FTS.searchGo, if_neg hq, Bool.false_eq_true, if_false]
      exact searchLoop_nonpos fts q l2 hl2 fts.keys _

/-- Claim C3 counterexample: with `limit = 0` (claimed unbounded) the
non-strict search returns nothing although a matching record exists — the
same search with `limit = 1` returns it — and with `limit = 1` a search
returns 2 records, exceeding the claimed `limit` bound. -/
theorem claim_C3_counterexample :
    (ftsSingleA.searchGo "a" 0 false).1 = [] ∧
    (ftsSingleA.searchGo "a" 1 false).1 = [[("name", "a")]] ∧
    (ftsPair.searchGo "ab" 1 false).1.length = 2 := by
  refine ⟨by decide, by decide, by decide⟩

/-- Claim C3 witness: the amended bound applied at a concrete instance. -/
theorem claim_C3_witness :
    ((ftsSingleA.searchGo "a" 1 false).1.length : Int) ≤ 1 - 1 + 1 ∧
    ∀ l2 : Int, l2 ≤ 0 → (ftsSingleA.searchGo "a" l2 false).1 = [] :=
  claim_C3_amended ftsSingleA "a" 1 1 (by decide) (by decide)

/-- Claim C4 (amended): a strict search returns exactly the records at
the indices of the posting stored under the query string *as given* (no
canonicalisation), in posting order, and `limit` is ignored entirely — no
truncation happens. -/
theorem claim_C4_amended (fts : FTS) (q : String) (limit : Int) (idxs : List Nat)
    (hq : 0 < q.length) (hc : cacheLookup fts q = some idxs) :
    (fts.searchGo q limit true).1 = idxs.map (fun i => fts.json.getD i []) ∧
    (fts.searchGo q limit true).2 = idxs.map (fun i => (i : Int)) := by
  have hq0 : ¬(q.length = 0) := by omega
  constructor <;> simp [FTS.searchGo, hq0, hc]

/-- Claim C4 counterexample: a strict search with `limit = 1` over a
posting of two records returns both — the result is not truncated to
`limit`. -/
theorem claim_C4_counterexample :
    (ftsPair.searchGo "ab" 1 true).1 = [[("name", "x")], [("name", "y")]] ∧
    (ftsPair.searchGo "ab" 1 true).1.length = 2 := by
  refine ⟨by decide, by decide⟩

/-- Claim C4 witness: the amended characterisation applied at the
counterexample instance. -/
theorem claim_C4_witness :
    (ftsPair.searchGo "ab" 1 true).1 = [0, 1].map (fun i => ftsPair.json.getD i []) ∧
    (ftsPair.searchGo "ab" 1 true).2 = [0, 1].map (fun i => ((i : Nat) : Int)) :=
  claim_C4_amended ftsPair "ab" 1 [0, 1] (by decide) (by decide)

/-- Claim C5: evaluation of the code at the failing input.  The store
record {name: "red car"} is indexed under both words; the multi-word
non-strict search for "red car" appends it once per token, returning the
same record twice — search does not de-duplicate its result. -/
theorem claim_C5_eval :
    (ftsDupRed.searchWithSpacesGo "red car" 10 false ["name"]).1 =
      [[("name", "red car")], [("name", "red car")]] := by
  decide

/-- Claim C6 (amended): `searchInJson` and `searchInJsonWithKey` scan the
store directly, bypass the index and match case-insensitively, but both
ignore the `limit` parameter entirely (it does not occur in either loop):
a record is returned iff it is in the store and matches, whatever the
limit; `searchInJson` appends a record once per matching schema field. -/
theorem claim_C6_amended (fts : FTS) (q key : String) (limit : Int) (ks : List String)
    (r : SRec) :
    (r ∈ fts.searchInJsonGo q limit ks ↔
      r ∈ fts.json ∧ ∃ kv ∈ r, kv.1 ∈ ks ∧ strHasSubIC kv.2 q = true) ∧
    (r ∈ fts.searchInJsonWithKeyGo q key limit ↔
      r ∈ fts.json ∧ strHasSubIC (lookupField r key) q = true) := by
  constructor
  · show r ∈ recsScanIC ks q fts.json ↔ _
    rw [mem_recsScanIC]
    constructor
    · rintro ⟨r2, hr2, hfield⟩
      rw [mem_fieldScanIC] at hfield
      rcases hfield with ⟨rfl, hkv⟩
      exact ⟨hr2, hkv⟩
    · rintro ⟨hr, hkv⟩
      exact ⟨r, hr, mem_fieldScanIC.mpr ⟨rfl, hkv⟩⟩
  · simp [FTS.searchInJsonWithKeyGo, List.mem_filter]

/-- Claim C6 counterexample: with two matching records in the store and
`limit = 1`, both `searchInJson` and `searchInJsonWithKey` return 2
records — neither respects the limit. -/
theorem claim_C6_counterexample :
    ftsTris.searchInJsonGo "tris" 1 ["name"] =
      [[("name", "tris")], [("name", "tristan")]] ∧
    ftsTris.searchInJsonWithKeyGo "tris" "name" 1 =
      [[("name", "tris")], [("name", "tristan")]] := by
  refine ⟨by decide, by decide⟩

/-- Claim C7 counterexample: the search over `ftsAlias` returns the store
record at index 0 (the alias list is `[0]`); writing through that alias —
which is what mutating the returned Go map does, since the code returned
`fts.json[0]` itself — changes the store's record. -/
theorem claim_C7_counterexample :
    ftsAlias.searchAliasesGo "tris" 10 false = [0] ∧
    (ftsAlias.searchGo "tris" 10 false).1 = [[("name", "tris")]] ∧
    (ftsAlias.storeWrite 0 [("name", "changed")]).json ≠ ftsAlias.json ∧
    (ftsAlias.storeWrite 0 [("name", "changed")]).json.getD 0 [] = [("name", "changed")] := by
  refine ⟨by decide, by decide, by decide, by decide⟩

/-! ### Lemmas about the initialisation pipeline -/

/-- The record loop of `insert` only rewrites field values: the field
names of every record are untouched, error or not. -/
theorem insertRecordGo_fst (ft : FullText) (cacheKey : String) :
    ∀ (r : VRec) (ts : TempStorage),
      (insertRecordGo ft ts cacheKey r).1.map Prod.fst = r.map Prod.fst := by
  intro r
  induction r with
  | nil => intro ts; simp [insertRecordGo]
  | cons kv rest ih =>
    intro ts
    by_cases hf : (wftGetValue kv.2).length = 0
    · simp only [insertRecordGo, if_pos hf]
      simp [ih ts]
    · simp only [insertRecordGo, if_neg hf]
      rcases hti : tsInsert ft ts cacheKey (wftGetValue kv.2) with e | ts2
      · show List.map Prod.fst ((kv.1, Value.str (wftGetValue kv.2)) :: rest) = _
        simp
      · show List.map Prod.fst
          ((kv.1, Value.str (wftGetValue kv.2)) :: (insertRecordGo ft ts2 cacheKey rest).1) = _
        simp [ih ts2]

/-- `insert` only rewrites field values: the record keys of the data map
are untouched, error or not. -/
theorem insertDataGo_fst (ft : FullText) :
    ∀ (data : RecordMap) (ts : TempStorage),
      (insertDataGo ft ts data).1.map Prod.fst = data.map Prod.fst := by
  intro data
  induction data with
  | nil => intro ts; simp [insertDataGo]
  | cons kr rest ih =>
    intro ts
    rcases hrec : insertRecordGo ft ts kr.1 kr.2 with ⟨r2, res⟩
    cases res with
    | error e => simp [insertDataGo, hrec]
    | ok ts2 => simp [insertDataGo, hrec, ih ts2]

/-- On success, the record loop of `insert` has replaced every indexable
field value by its extracted string. -/
theorem insertRecordGo_ok (ft : FullText) (cacheKey : String) :
    ∀ (r : VRec) (ts ts2 : TempStorage),
      (insertRecordGo ft ts cacheKey r).2 = .ok ts2 →
      (insertRecordGo ft ts cacheKey r).1 = replaceFields r := by
  intro r
  induction r with
  | nil => intro ts ts2 _; simp [insertRecordGo, replaceFields]
  | cons kv rest ih =>
    intro ts ts2 h
    by_cases hf : (wftGetValue kv.2).length = 0
    · simp only [insertRecordGo, if_pos hf] at h ⊢
      have h2 : (insertRecordGo ft ts cacheKey rest).2 = Except.ok ts2 := h
      rw [show replaceFields (kv :: rest) = kv :: replaceFields rest by
        simp [replaceFields, hf]]
      show kv :: (insertRecordGo ft ts cacheKey rest).1 = _
      rw [ih ts ts2 h2]
    · simp only [insertRecordGo, if_neg hf] at h ⊢
      rcases hti : tsInsert ft ts cacheKey (wftGetValue kv.2) with e | ts3
      · rw [hti] at h
        exact Except.noConfusion
          (show (Except.error e : Except String TempStorage) = Except.ok ts2 from h)
      · rw [hti] at h
        have h2 : (insertRecordGo ft ts3 cacheKey rest).2 = Except.ok ts2 := h
        rw [show replaceFields (kv :: rest) =
            (kv.1, Value.str (wftGetValue kv.2)) :: replaceFields rest by
          simp [replaceFields, hf]]
        show (kv.1, Value.str (wftGetValue kv.2)) ::
          (insertRecordGo ft ts3 cacheKey rest).1 = _
        rw [ih ts3 ts2 h2]

/-- On success, `insert` has replaced every indexable field value of
every record by its extracted string. -/
theorem insertDataGo_ok (ft : FullText) :
    ∀ (data : RecordMap) (ts ts2 : TempStorage),
      (insertDataGo ft ts data).2 = .ok ts2 →
      (insertDataGo ft ts data).1 = replaceAll data := by
  intro data
  induction data with
  | nil => intro ts ts2 _; simp [insertDataGo, replaceAll]
  | cons kr rest ih =>
    intro ts ts2 h
    rcases hrec : insertRecordGo ft ts kr.1 kr.2 with ⟨r2, res⟩
    cases res with
    | error e =>
      rw [insertDataGo, hrec] at h
      simp at h
    | ok ts3 =>
      rw [insertDataGo, hrec] at h ⊢
      have h2 : (insertDataGo ft ts3 rest).2 = Except.ok ts2 := by
        simpa using h
      have h1 : r2 = replaceFields kr.2 := by
        have hx := insertRecordGo_ok ft kr.1 kr.2 ts ts3 (by rw [hrec])
        rwa [hrec] at hx
      rw [show replaceAll (kr :: rest) =
          (kr.1, replaceFields kr.2) :: replaceAll rest by simp [replaceAll]]
      show (kr.1, r2) :: (insertDataGo ft ts3 rest).1 = _
      rw [h1, ih ts3 ts2 h2]

/-- `insert` preserves the record keys of the data map. -/
theorem insertGo_fst (ft : FullText) (data : RecordMap) :
    (ft.insertGo data).1.map Prod.fst = data.map Prod.fst := by
  have hfst := insertDataGo_fst ft data (newTempStorage ft)
  rcases hid : insertDataGo ft (newTempStorage ft) data with ⟨dd, rr⟩
  rw [hid] at hfst
  cases rr with
  | error e => rw [FullText.insertGo, hid]; exact hfst
  | ok ts => rw [FullText.insertGo, hid]; exact hfst

/-- On success, `insert` returns the data map with every indexable field
value replaced by its extracted string. -/
theorem insertGo_ok (ft : FullText) (data : RecordMap) (ft2 : FullText)
    (h : (ft.insertGo data).2 = .ok ft2) :
    (ft.insertGo data).1 = replaceAll data := by
  rcases hid : insertDataGo ft (newTempStorage ft) data with ⟨dd, rr⟩
  cases rr with
  | error e =>
    rw [FullText.insertGo, hid] at h
    simp at h
  | ok ts =>
    have hdd : dd = replaceAll data := by
      have := insertDataGo_ok ft data (newTempStorage ft) ts (by rw [hid])
      rwa [hid] at this
    rw [FullText.insertGo, hid]
    exact hdd

/-- When the merge loop of `ftInitWithMap` stops at a colliding key, the
incoming map has been extended by exactly the store records iterated
before that key: a partial extension. -/
theorem mergeData_pre :
    ∀ (store d : RecordMap) (k : String), (mergeData store d).2 = some k →
      ∃ pre rest2, store = pre ++ rest2 ∧ (mergeData store d).1 = d ++ pre := by
  intro store
  induction store with
  | nil => intro d k h; simp [mergeData] at h
  | cons kr rest ih =>
    intro d k h
    by_cases hd : hasKey d kr.1 = true
    · refine ⟨[], kr :: rest, by simp, ?_⟩
      simp [mergeData, hd]
    · simp only [mergeData, if_neg hd] at h ⊢
      obtain ⟨pre, rest2, hst, hmap⟩ := ih (d ++ [kr]) k h
      refine ⟨kr :: pre, rest2, by simp [hst], ?_⟩
      rw [hmap]
      simp

/-- If some key lives in both the store and the incoming map, the merge
loop of `ftInitWithMap` stops at a collision. -/
theorem mergeData_collides :
    ∀ (store d : RecordMap) (k : String), hasKey store k = true → hasKey d k = true →
      ∃ kk, (mergeData store d).2 = some kk := by
  intro store
  induction store with
  | nil => intro d k h1 h2; simp [hasKey] at h1
  | cons kr rest ih =>
    intro d k h1 h2
    by_cases hd : hasKey d kr.1 = true
    · exact ⟨kr.1, by simp [mergeData, hd]⟩
    · have hkr : ¬(kr.1 = k) := fun he => hd (by rw [he]; exact h2)
      have h1a : hasKey rest k = true := by
        rw [hasKey, List.any_cons] at h1
        rcases Bool.or_eq_true_iff.mp h1 with hx | hx
        · exact absurd (by simpa using hx) hkr
        · exact hx
      have h2a : hasKey (d ++ [kr]) k = true := by
        rw [hasKey, List.any_append]
        rw [hasKey] at h2
        simp [h2]
      simp only [mergeData, if_neg hd]
      exact ih (d ++ [kr]) k h1a h2a

/-! ### Claims C1, C8, C9, C10: the initialisation pipeline -/

/-- Branch lemma: `ftInit` when `insert` fails — the mutated data is kept,
the index field is untouched. -/
theorem ftInitGo_err (c : Cache) (maxSize maxBytes : Int) (minWordLength : Nat)
    (e : String)
    (hi : ((newFullText maxSize maxBytes minWordLength).insertGo c.data).2 = .error e) :
    c.ftInitGo maxSize maxBytes minWordLength =
      ({ c with data := ((newFullText maxSize maxBytes minWordLength).insertGo c.data).1 },
        .error e) := by
  rw [Cache.ftInitGo.eq_def, hi]

/-- Branch lemma: `ftInit` when `insert` succeeds — the mutated data and
the new index are installed. -/
theorem ftInitGo_ok (c : Cache) (maxSize maxBytes : Int) (minWordLength : Nat)
    (ft2 : FullText)
    (hi : ((newFullText maxSize maxBytes minWordLength).insertGo c.data).2 = .ok ft2) :
    c.ftInitGo maxSize maxBytes minWordLength =
      ({ c with
          data := ((newFullText maxSize maxBytes minWordLength).insertGo c.data).1,
          ft := some ft2 }, .ok ()) := by
  rw [Cache.ftInitGo.eq_def, hi]

/-- Branch lemma: `ftInitWithMap` when the merge loop collides. -/
theorem ftInitWithMapGo_collision (c : Cache) (d : RecordMap)
    (maxSize maxBytes : Int) (minWordLength : Nat) (k : String)
    (hm : (mergeData c.data d).2 = some k) :
    c.ftInitWithMapGo d maxSize maxBytes minWordLength =
      (c, (mergeData c.data d).1,
        .error ("key " ++ k ++ " already exists in cache")) := by
  rw [Cache.ftInitWithMapGo.eq_def, hm]

/-- Branch lemma: `ftInitWithMap` when the merge succeeds but `insert`
fails — the caller's map is mutated, the store sees the record rewrites
through sharing, the index field is untouched. -/
theorem ftInitWithMapGo_insertErr (c : Cache) (d : RecordMap)
    (maxSize maxBytes : Int) (minWordLength : Nat) (e : String)
    (hm : (mergeData c.data d).2 = none)
    (hi : ((newFullText maxSize maxBytes minWordLength).insertGo
        (mergeData c.data d).1).2 = .error e) :
    c.ftInitWithMapGo d maxSize maxBytes minWordLength =
      ({ c with data := c.data.map (fun kv => (kv.1,
          (lookupRec ((newFullText maxSize maxBytes minWordLength).insertGo
            (mergeData c.data d).1).1 kv.1).getD kv.2)) },
        ((newFullText maxSize maxBytes minWordLength).insertGo
          (mergeData c.data d).1).1, .error e) := by
  rw [Cache.ftInitWithMapGo.eq_def, hm, hi]

/-- Branch lemma: `ftInitWithMap` when everything succeeds — the mutated
caller's map becomes the store and the index is installed. -/
theorem ftInitWithMapGo_ok (c : Cache) (d : RecordMap)
    (maxSize maxBytes : Int) (minWordLength : Nat) (ft2 : FullText)
    (hm : (mergeData c.data d).2 = none)
    (hi : ((newFullText maxSize maxBytes minWordLength).insertGo
        (mergeData c.data d).1).2 = .ok ft2) :
    c.ftInitWithMapGo d maxSize maxBytes minWordLength =
      ({ c with
          data := ((newFullText maxSize maxBytes minWordLength).insertGo
            (mergeData c.data d).1).1,
          ft := some ft2 },
        ((newFullText maxSize maxBytes minWordLength).insertGo
          (mergeData c.data d).1).1, .ok ()) := by
  rw [Cache.ftInitWithMapGo.eq_def, hm, hi]

/-- Claim C1 (amended): when an FT-init variant fails part-way through,
the index is untouched (the cache keeps its nil full-text pointer, hence
stays uninitialised) and no record key is added to or removed from the
store, but partial state is *not* fully cleared: field values already
processed by the indexer keep their in-place replacement by the extracted
string, and on a key collision the caller's map keeps the store records
already copied — so after a CapExceeded failure the store need not be
bit-identical to its pre-call state. -/
theorem claim_C1_amended (c1 : Cache) (e1 : String) (c2 : Cache) (d2 : RecordMap)
    (k2 : String) (c3 : Cache) (d3 : RecordMap) (e3 : String)
    (maxSize maxBytes : Int) (minWordLength : Nat)
    (h0 : c1.ft = none)
    (h1 : (c1.FTInitGo maxSize maxBytes minWordLength).2 = .error e1)
    (h2 : c2.ft = none)
    (hcol : (mergeData c2.data d2).2 = some k2)
    (h3 : c3.ft = none)
    (hnc : (mergeData c3.data d3).2 = none)
    (herr : ((newFullText maxSize maxBytes minWordLength).insertGo
        (mergeData c3.data d3).1).2 = .error e3) :
    ((c1.FTInitGo maxSize maxBytes minWordLength).1.ft = none ∧
      (c1.FTInitGo maxSize maxBytes minWordLength).1.data.map Prod.fst =
        c1.data.map Prod.fst) ∧
    (c2.FTInitWithMapGo d2 maxSize maxBytes minWordLength).1 = c2 ∧
    ((c3.FTInitWithMapGo d3 maxSize maxBytes minWordLength).1.ft = none ∧
      (c3.FTInitWithMapGo d3 maxSize maxBytes minWordLength).1.data.map Prod.fst =
        c3.data.map Prod.fst) := by
  refine ⟨?_, ?_, ?_⟩
  · rw [Cache.FTInitGo, if_neg (by simp [h0])] at h1 ⊢
    cases hrr : ((newFullText maxSize maxBytes minWordLength).insertGo c1.data).2 with
    | error e =>
      rw [ftInitGo_err c1 maxSize maxBytes minWordLength e hrr]
      exact ⟨h0, insertGo_fst _ _⟩
    | ok ft2 =>
      rw [ftInitGo_ok c1 maxSize maxBytes minWordLength ft2 hrr] at h1
      simp at h1
  · rw [Cache.FTInitWithMapGo, if_neg (by simp [h2]),
      ftInitWithMapGo_collision c2 d2 maxSize maxBytes minWordLength k2 hcol]
  · cases hrr : ((newFullText maxSize maxBytes minWordLength).insertGo
        (mergeData c3.data d3).1).2 with
    | error e =>
      rw [Cache.FTInitWithMapGo, if_neg (by simp [h3]),
        ftInitWithMapGo_insertErr c3 d3 maxSize maxBytes minWordLength e hnc hrr]
      refine ⟨h3, ?_⟩
      simp [List.map_map, Function.comp_def]
    | ok ft2 =>
      rw [hrr] at herr
      exact Except.noConfusion herr

/-- Claim C1 counterexample: initialising over the store record
{r: {f: ["aa", "bb"]}} with a one-word cap fails with CapExceeded, yet
the store is not bit-identical to its pre-call state: the list-valued
field has been replaced in place by the extracted string "aa bb". -/
theorem claim_C1_counterexample :
    (cacheCap.FTInitGo 1 (-1) 1).2 = .error "full-text storage limit reached" ∧
    (cacheCap.FTInitGo 1 (-1) 1).1.data = [("r", [("f", Value.str "aa bb")])] ∧
    cacheCap.data =
      [("r", [("f", Value.arr (.cons (.str "aa") (.cons (.str "bb") .nil)))])] ∧
    Value.str "aa bb" ≠ Value.arr (.cons (.str "aa") (.cons (.str "bb") .nil)) :=
  ⟨rfl, rfl, rfl, fun h => Value.noConfusion h⟩

/-- Claim C1 witness: the amended statement applied at concrete failing
runs (cap exceeded for `FTInit` and for the map variant, key collision
for the map variant). -/
theorem claim_C1_witness :
    ((cacheCap.FTInitGo 1 (-1) 1).1.ft = none ∧
      (cacheCap.FTInitGo 1 (-1) 1).1.data.map Prod.fst = cacheCap.data.map Prod.fst) ∧
    (cacheColl.FTInitWithMapGo mapColl 1 (-1) 1).1 = cacheColl ∧
    ((cacheEmpty.FTInitWithMapGo mapRS 1 (-1) 1).1.ft = none ∧
      (cacheEmpty.FTInitWithMapGo mapRS 1 (-1) 1).1.data.map Prod.fst =
        cacheEmpty.data.map Prod.fst) :=
  claim_C1_amended cacheCap "full-text storage limit reached" cacheColl mapColl "a"
    cacheEmpty mapRS "full-text storage limit reached" 1 (-1) 1 rfl rfl rfl
    (by decide) rfl (by decide) rfl

/-- Claim C8: whenever some key of the incoming map already exists as a
record in the store, `FTInitWithMap` on an uninitialised cache fails with
the key-collision error and the cache is left exactly as it was — in
particular uninitialised. -/
theorem claim_C8_holds (c : Cache) (data : RecordMap) (maxSize maxBytes : Int)
    (minWordLength : Nat) (k : String) (h0 : c.ft = none)
    (h1 : hasKey c.data k = true) (h2 : hasKey data k = true) :
    ∃ kk, (c.FTInitWithMapGo data maxSize maxBytes minWordLength).2.2 =
        .error ("key " ++ kk ++ " already exists in cache") ∧
      (c.FTInitWithMapGo data maxSize maxBytes minWordLength).1 = c := by
  obtain ⟨kk, hkk⟩ := mergeData_collides c.data data k h1 h2
  refine ⟨kk, ?_, ?_⟩ <;>
    rw [Cache.FTInitWithMapGo, if_neg (by simp [h0]),
      ftInitWithMapGo_collision c data maxSize maxBytes minWordLength kk hkk]

/-- Claim C8 witness: the collision theorem applied at a concrete
colliding instance. -/
theorem claim_C8_witness :
    ∃ kk, (cacheColl.FTInitWithMapGo mapColl (-1) (-1) 1).2.2 =
        .error ("key " ++ kk ++ " already exists in cache") ∧
      (cacheColl.FTInitWithMapGo mapColl (-1) (-1) 1).1 = cacheColl :=
  claim_C8_holds cacheColl mapColl (-1) (-1) 1 "a" rfl (by decide) (by decide)

/-- Claim C9: every FT-init variant called on an already-initialised
cache fails with the already-initialised error and leaves the cache (its
store and its index) untouched, while a successful `FTInit` on an
uninitialised cache installs the index, moving it to initialised. -/
theorem claim_C9_holds (c c2 : Cache) (d : RecordMap) (fd : Except String RecordMap)
    (maxSize maxBytes : Int) (minWordLength : Nat) (ftPrev : FullText)
    (d2 : RecordMap) (ft2 : FullText)
    (h1 : c.ft = some ftPrev) (h2 : c2.ft = none)
    (h3 : (newFullText maxSize maxBytes minWordLength).insertGo c2.data = (d2, .ok ft2)) :
    c.FTInitGo maxSize maxBytes minWordLength =
      (c, .error "full-text already initialized") ∧
    c.FTInitWithMapGo d maxSize maxBytes minWordLength =
      (c, d, .error "full-text cache already initialized") ∧
    c.FTInitWithJsonGo fd maxSize maxBytes minWordLength =
      (c, .error "full-text cache already initialized") ∧
    c2.FTInitGo maxSize maxBytes minWordLength =
      ({ c2 with data := d2, ft := some ft2 }, .ok ()) := by
  refine ⟨?_, ?_, ?_, ?_⟩
  · rw [Cache.FTInitGo, if_pos (by simp [h1])]
  · rw [Cache.FTInitWithMapGo, if_pos (by simp [h1])]
  · rw [Cache.FTInitWithJsonGo.eq_def, if_pos (by simp [h1])]
  · rw [Cache.FTInitGo, if_neg (by simp [h2]),
      ftInitGo_ok c2 maxSize maxBytes minWordLength ft2 (by rw [h3]),
      show ((newFullText maxSize maxBytes minWordLength).insertGo c2.data).1 = d2
        by rw [h3]]

/-- Claim C9 witness: the lifecycle theorem applied at an initialised and
at an empty cache. -/
theorem claim_C9_witness :
    cacheInitialised.FTInitGo (-1) (-1) 1 =
      (cacheInitialised, .error "full-text already initialized") ∧
    cacheInitialised.FTInitWithMapGo [] (-1) (-1) 1 =
      (cacheInitialised, [], .error "full-text cache already initialized") ∧
    cacheInitialised.FTInitWithJsonGo (.error "io") (-1) (-1) 1 =
      (cacheInitialised, .error "full-text cache already initialized") ∧
    cacheEmpty.FTInitGo (-1) (-1) 1 =
      ({ cacheEmpty with data := [], ft := some (newFullText (-1) (-1) 1) }, .ok ()) :=
  claim_C9_holds cacheInitialised cacheEmpty [] (.error "io") (-1) (-1) 1
    (newFullText (-1) (-1) 1) [] (newFullText (-1) (-1) 1) rfl rfl rfl

/-- Claim C10: `ftInitWithMap` mutates and keeps the caller's map.  On a
collision stop, the caller's map has been extended in place by the store
records iterated before the colliding key (a partial extension).  On
success, the caller's map has every indexable field value replaced in
place by its extracted string, and that same (mutated) map becomes the
store. -/
theorem claim_C10_holds (c1 : Cache) (d1 : RecordMap) (k1 : String)
    (c2 : Cache) (d2 : RecordMap) (maxSize maxBytes : Int) (minWordLength : Nat)
    (h1 : c1.ft = none) (hcol : (mergeData c1.data d1).2 = some k1)
    (h2 : c2.ft = none)
    (hok : (c2.FTInitWithMapGo d2 maxSize maxBytes minWordLength).2.2 = .ok ()) :
    (∃ pre rest2, c1.data = pre ++ rest2 ∧
      (c1.FTInitWithMapGo d1 maxSize maxBytes minWordLength).2.1 = d1 ++ pre) ∧
    (c2.FTInitWithMapGo d2 maxSize maxBytes minWordLength).1.data =
      (c2.FTInitWithMapGo d2 maxSize maxBytes minWordLength).2.1 ∧
    (c2.FTInitWithMapGo d2 maxSize maxBytes minWordLength).2.1 =
      replaceAll (mergeData c2.data d2).1 := by
  refine ⟨?_, ?_⟩
  · obtain ⟨pre, rest2, hst, hmap⟩ := mergeData_pre c1.data d1 k1 hcol
    refine ⟨pre, rest2, hst, ?_⟩
    rw [Cache.FTInitWithMapGo, if_neg (by simp [h1]),
      ftInitWithMapGo_collision c1 d1 maxSize maxBytes minWordLength k1 hcol]
    exact hmap
  · cases hmres : (mergeData c2.data d2).2 with
    | some k =>
      rw [Cache.FTInitWithMapGo, if_neg (by simp [h2]),
        ftInitWithMapGo_collision c2 d2 maxSize maxBytes minWordLength k hmres] at hok
      simp at hok
    | none =>
      cases hrr : ((newFullText maxSize maxBytes minWordLength).insertGo
          (mergeData c2.data d2).1).2 with
      | error e =>
        rw [Cache.FTInitWithMapGo, if_neg (by simp [h2]),
          ftInitWithMapGo_insertErr c2 d2 maxSize maxBytes minWordLength e hmres hrr]
          at hok
        simp at hok
      | ok ft2 =>
        rw [Cache.FTInitWithMapGo, if_neg (by simp [h2]),
          ftInitWithMapGo_ok c2 d2 maxSize maxBytes minWordLength ft2 hmres hrr]
        exact ⟨rfl, insertGo_ok (newFullText maxSize maxBytes minWordLength)
          (mergeData c2.data d2).1 ft2 hrr⟩

/-- Claim C10 witness: the mutation theorem applied at a concrete
colliding run and a concrete successful run whose list-valued field is
rewritten in place. -/
theorem claim_C10_witness :
    (∃ pre rest2, cacheColl.data = pre ++ rest2 ∧
      (cacheColl.FTInitWithMapGo mapColl (-1) (-1) 1).2.1 = mapColl ++ pre) ∧
    (cacheEmpty.FTInitWithMapGo mapRS (-1) (-1) 1).1.data =
      (cacheEmpty.FTInitWithMapGo mapRS (-1) (-1) 1).2.1 ∧
    (cacheEmpty.FTInitWithMapGo mapRS (-1) (-1) 1).2.1 =
      replaceAll (mergeData cacheEmpty.data mapRS).1 :=
  claim_C10_holds cacheColl mapColl "a" cacheEmpty mapRS (-1) (-1) 1 rfl (by decide)
    rfl rfl

end Hermes
